import Mathlib

/-!
Shallow embedding of the SQLite-DBReader sources (Go) and proofs about the
claims of its specification.  The Go code is modelled over `List Nat` byte
buffers (every byte value is < 256 in any real file); machine-integer
overflow is made explicit with `% 2 ^ 64` where the Go `uint64` arithmetic
can wrap.  Go panics and `log.Fatal` aborts are modelled as `Option.none`;
`ReadAt` calls whose error the source discards leave the zero-initialised
buffer in place, which is modelled by reading `0` outside the file bounds.
-/

namespace SQLiteRdr

/-- Lower seven bits of a byte, `b & 0x7f` in the source. -/
def low7 (b : Nat) : Nat := b % 128

/-- Whether the continuation (high) bit of a byte is clear, `b & 0x80 == 0`. -/
def hiClear (b : Nat) : Bool := b % 256 < 128

/-- Helper loop of `ReadVarInt` (btree.go).  `res` is the running value and
`i` the number of bytes consumed so far. -/
def readVarIntGo : List Nat → Nat → Nat → Nat × Nat
  | [], res, _ => (res, 0)
  | b :: rest, res, i =>
    let res := (res * 128) % 2 ^ 64 + low7 b
    if hiClear b then (res, i + 1) else readVarIntGo rest res (i + 1)

/-- `ReadVarInt` from btree.go: big-endian 7-bit groups, stops at the first
byte whose high bit is clear; if no byte clears it, returns the value
accumulated over the whole buffer together with a count of `0`. -/
def ReadVarInt (buf : List Nat) : Nat × Nat := readVarIntGo buf 0 0

/-- Helper loop of Go's `binary.Uvarint`: little-endian 7-bit groups with a
ten byte cap; on overflow the byte count is returned negative. -/
def goUvarintLoop : List Nat → Nat → Nat → Nat → Nat × Int
  | [], x, _, _ => (x, 0)
  | b :: rest, x, s, i =>
    if i = 10 then (0, -(11 : Int))
    else if hiClear b then
      if i = 9 ∧ 1 < b % 256 then (0, -(10 : Int))
      else ((x + (b % 256) * 2 ^ s) % 2 ^ 64, (i : Int) + 1)
    else goUvarintLoop rest ((x + low7 b * 2 ^ s) % 2 ^ 64) (s + 7) (i + 1)

/-- Go's `binary.Uvarint`, used by the leaf-cell readers for payload sizes. -/
def goUvarint (buf : List Nat) : Nat × Int := goUvarintLoop buf 0 0 0

/-- Record from btree.go: header size, serial-type codes and the value byte
slices (`Keys`).  The `RowID` field of the Go struct is never written by
`ReadRecord` and is omitted. -/
structure RecordS where
  headerSize : Nat
  columnTypes : List Nat
  keys : List (List Nat)
  deriving DecidableEq, Repr

/-- Go slice expression `buf[a:b]` (the caller checks `a ≤ b ≤ len buf`). -/
def sliceN (buf : List Nat) (a b : Nat) : List Nat := (buf.drop a).take (b - a)

/-- Column-type loop of `ReadRecord`: read varints from offset `n` until
`headerSize` bytes of header are consumed.  The Go loop never terminates when
a varint consumes zero bytes (`n` stops advancing); that case, and running
out of fuel, are modelled as `none`. -/
def readColTypes (buf : List Nat) : Nat → Nat → Nat → Option (List Nat × Nat)
  | _, _, 0 => none
  | n, hs, fuel + 1 =>
    if n < hs then
      if n ≤ buf.length then
        let (t, k) := ReadVarInt (buf.drop n)
        if k = 0 then none
        else do
          let (ts, n') ← readColTypes buf (n + k) hs fuel
          some (t :: ts, n')
      else none
    else some ([], n)

/-- Body loop of `ReadRecord`: reads one value slice per serial-type code.
Fixed-width reads that overrun the buffer are Go slice-bounds panics
(`none`); TEXT and BLOB reads are clamped with `min` exactly as in the
source, while `n` still advances by the declared width. -/
def readKeys (buf : List Nat) : Nat → List Nat → Option (List (List Nat))
  | _, [] => some []
  | n, t :: ts =>
    if t = 0 then do
      let ks ← readKeys buf n ts
      some ([0] :: ks)
    else if t = 1 ∨ t = 2 ∨ t = 3 ∨ t = 4 ∨ t = 5 ∨ t = 6 ∨ t = 7 then
      let w : Nat :=
        if t = 1 then 1 else if t = 2 then 2 else if t = 3 then 3
        else if t = 4 then 4 else if t = 5 then 6 else 8
      if n + w ≤ buf.length then do
        let ks ← readKeys buf (n + w) ts
        some (sliceN buf n (n + w) :: ks)
      else none
    else if t = 8 then do
      let ks ← readKeys buf n ts
      some ([0] :: ks)
    else if t = 9 then do
      let ks ← readKeys buf n ts
      some ([1] :: ks)
    else if t = 10 ∨ t = 11 then
      readKeys buf n ts
    else if 12 ≤ t ∧ t % 2 = 0 then
      let keyLen := (t - 12) / 2
      if n ≤ buf.length then do
        let ks ← readKeys buf (n + keyLen) ts
        some (sliceN buf n (min (keyLen + n) buf.length) :: ks)
      else none
    else
      let keyLen := (t - 13) / 2
      if n ≤ buf.length then do
        let ks ← readKeys buf (n + keyLen) ts
        some (sliceN buf n (min (keyLen + n) buf.length) :: ks)
      else none

/-- `ReadRecord` from btree.go: varint header size, then serial-type varints
until the header is exhausted, then one value slice per type. -/
def ReadRecord (buf : List Nat) : Option RecordS := do
  let (headerSize, n0) := ReadVarInt buf
  let (colTypes, n1) ← readColTypes buf n0 headerSize (headerSize + 1)
  let ks ← readKeys buf n1 colTypes
  some ⟨headerSize, colTypes, ks⟩

/-- Go `string(bytes)` conversion; each byte becomes one character, which
agrees with Go's UTF-8 decoding on the ASCII data the program handles. -/
def bytesToString (bs : List Nat) : String := String.mk (bs.map fun b => Char.ofNat (b % 256))

/-- Whether `sub` occurs as a contiguous sublist of `l`. -/
def listInfix (sub l : List Char) : Bool :=
  (List.range (l.length + 1)).any fun i => sub.isPrefixOf (l.drop i)

/-- Go `strings.Contains(s, sub)`. -/
def goContains (s sub : String) : Bool := listInfix sub.toList s.toList

/-- Go `strings.ToLower` (ASCII range, which covers the data handled). -/
def goToLower (s : String) : String := String.mk (s.toList.map Char.toLower)

/-- The single-quote character, written by code point to keep sources clean. -/
def quoteC : Char := Char.ofNat 39

/-- Go `strings.Trim(s, cutset)` for the single-quote cutset used by
`FilterEqual`: strips every leading and trailing quote character. -/
def goTrimQuotes (s : String) : String :=
  String.mk (((s.toList.dropWhile (· == quoteC)).reverse.dropWhile (· == quoteC)).reverse)

/-- Go `strings.Index(s, sub)`: byte index of the first occurrence, `-1` when
absent (character index here; identical for the ASCII schema text). -/
def goIndex (s sub : String) : Int :=
  match (List.range (s.toList.length + 1)).find? (fun i => sub.toList.isPrefixOf (s.toList.drop i)) with
  | some i => (i : Int)
  | none => -1

/-- Go `bytesToInt` from btree.go: big-endian accumulation into an `int`. -/
def bytesToInt (bs : List Nat) : Nat := bs.foldl (fun r b => (r * 256 + b % 256) % 2 ^ 64) 0

/-- Go `parseColNames` from btree.go: the text between the first `(` and the
first `)`, split on commas, each piece space-trimmed.  The Go slice expression
panics when `)` comes before `(` or is absent (`none`). -/
def parseColNames (bs : List Nat) : Option (List String) :=
  let s := bytesToString bs
  let a : Int := goIndex s "(" + 1
  let b : Int := goIndex s ")"
  if 0 ≤ a ∧ a ≤ b ∧ b ≤ (s.toList.length : Int) then
    some (((String.mk ((s.toList.drop a.toNat).take (b - a).toNat)).splitOn ",").map String.trim)
  else none

/-- Catalog row built from page 1, the `Table` struct of btree.go. -/
structure TableGo where
  name : String
  pageNum : Nat
  colNames : List String
  deriving DecidableEq, Repr

/-- Page header of btree.go (the raw bytes are not retained). -/
structure HeaderS where
  type : Nat
  cellCount : Nat
  rightMost : Nat
  deriving DecidableEq, Repr

/-- Cell of btree.go; unused variant fields keep their zero values exactly as
in the single wide Go struct. -/
structure CellS where
  leftChildPointer : Nat
  rowID : Nat
  payloadSize : Nat
  payload : List Nat
  record : Option RecordS
  deriving DecidableEq, Repr

/-- Page of btree.go (the file handle is not retained). -/
inductive PageS where
  | mk (header : HeaderS) (size : Nat) (offset : Int) (pageNum : Nat)
       (cellPtrs : List Int) (tables : List TableGo) (cells : List CellS)
       (pages : List PageS)

def PageS.header : PageS → HeaderS
  | .mk h _ _ _ _ _ _ _ => h

def PageS.cellPtrs : PageS → List Int
  | .mk _ _ _ _ cp _ _ _ => cp

def PageS.tables : PageS → List TableGo
  | .mk _ _ _ _ _ ts _ _ => ts

def PageS.cells : PageS → List CellS
  | .mk _ _ _ _ _ _ cs _ => cs

def PageS.pages : PageS → List PageS
  | .mk _ _ _ _ _ _ _ ps => ps

/-- Read `len` bytes of the database file starting at `off`; positions
outside the file read as zero, matching `ReadAt` into a zeroed buffer with
the error discarded. -/
def fileRead (file : List Nat) (off : Int) (len : Nat) : List Nat :=
  (List.range len).map fun i => if 0 ≤ off + (i : Int) then file.getD (off + (i : Int)).toNat 0 else 0

/-- Single byte of the file at `off` (zero outside the file). -/
def byteAt (file : List Nat) (off : Int) : Nat :=
  if 0 ≤ off then file.getD off.toNat 0 else 0

/-- Big-endian 16-bit read (`binary.Read` with `binary.BigEndian`). -/
def be16 (l : List Nat) : Nat := l.getD 0 0 % 256 * 256 + l.getD 1 0 % 256

/-- Big-endian 32-bit read. -/
def be32 (l : List Nat) : Nat :=
  ((l.getD 0 0 % 256 * 256 + l.getD 1 0 % 256) * 256 + l.getD 2 0 % 256) * 256 + l.getD 3 0 % 256

/-- Big-endian signed 16-bit read, the `int16` cell pointers. -/
def readInt16 (l : List Nat) : Int :=
  let v := be16 l
  if v < 32768 then (v : Int) else (v : Int) - 65536

/-- Header length chosen by `NewHeader`: 12 for the two interior page types,
8 for everything else (including unknown type bytes). -/
def NewHeaderSize (t : Nat) : Nat := if t = 5 ∨ t = 2 then 12 else 8

/-- `ReadHeader` from btree.go: type byte, cell count from raw bytes 3..5,
and for interior types the right-most child pointer from raw bytes 8..12. -/
def ReadHeaderB (file : List Nat) (off : Int) : HeaderS :=
  let t := byteAt file off
  let raw := fileRead file off (NewHeaderSize t)
  { type := t
    cellCount := be16 (raw.drop 3)
    rightMost := if t = 5 ∨ t = 2 then be32 (raw.drop 8) else 0 }

/-- The cell-pointer array: `cellCount` big-endian `int16` values right after
the page header. -/
def readPtrs (file : List Nat) (off : Int) (t cellCount : Nat) : List Int :=
  (List.range cellCount).map fun i =>
    readInt16 (fileRead file (off + (NewHeaderSize t : Int) + 2 * (i : Int)) 2)

/-- `ReadTableLeafCell` from btree.go, one iteration per cell pointer.  Also
builds the `Tables` catalog rows when decoding page 1. -/
def readTableLeafLoop (file : List Nat) (size : Nat) (off : Int) (pageNum : Nat) :
    List Int → Option (List CellS × List TableGo)
  | [] => some ([], [])
  | p :: ps => do
    let cellPtr : Int := p + (if pageNum = 1 then 0 else off)
    let buf := fileRead file cellPtr (size - Int.tmod cellPtr (size : Int)).toNat
    let (payloadSize, n) := goUvarint buf
    if n < 0 then none
    else do
      let (rowID, n1) := ReadVarInt (buf.drop n.toNat)
      let r ← ReadRecord (buf.drop (n.toNat + n1))
      let cell : CellS := ⟨0, rowID, payloadSize, [], some r⟩
      let (cs, ts) ← readTableLeafLoop file size off pageNum ps
      if pageNum = 1 then do
        let k1 ← r.keys.get? 1
        let k3 ← r.keys.get? 3
        let k4 ← r.keys.get? 4
        let cols ← parseColNames k4
        some (cell :: cs, ⟨bytesToString k1, bytesToInt k3, cols⟩ :: ts)
      else some (cell :: cs, ts)

/-- `ReadIndexLeafCell` from btree.go: the cell pointer is used as an
absolute file offset (no page-offset correction in the source). -/
def readIndexLeafLoop (file : List Nat) (size : Nat) : List Int → Option (List CellS)
  | [] => some []
  | p :: ps => do
    if (size : Int) - p < 0 then none
    else do
      let buf := fileRead file p ((size : Int) - p).toNat
      let (payloadSize, n) := goUvarint buf
      let payload := fileRead file (p + n) payloadSize
      let cs ← readIndexLeafLoop file size ps
      some (⟨0, 0, payloadSize, payload, none⟩ :: cs)

/-- `ReadIndexInteriorCell` from btree.go. -/
def readIndexInteriorLoop (file : List Nat) (size : Nat) : List Int → Option (List CellS)
  | [] => some []
  | p :: ps => do
    if (size : Int) - p < 0 then none
    else do
      let buf := fileRead file p ((size : Int) - p).toNat
      if buf.length < 4 then none
      else do
        let lc := be32 (buf.take 4)
        let (payloadSize, n) := goUvarint (buf.drop 4)
        let payload := fileRead file (p + n + 4) payloadSize
        let cs ← readIndexInteriorLoop file size ps
        some (⟨lc, 0, payloadSize, payload, none⟩ :: cs)

/-- `ReadTableInteriorCell` from btree.go: buffer length computed from the
raw pointer, bytes read from the page-offset-corrected position. -/
def readTableInteriorLoop (file : List Nat) (size : Nat) (off : Int) : List Int → Option (List CellS)
  | [] => some []
  | p :: ps => do
    if (size : Int) - p < 0 then none
    else do
      let buf := fileRead file (p + off) ((size : Int) - p).toNat
      if buf.length < 4 then none
      else do
        let lc := be32 (buf.take 4)
        let rowID := (goUvarint (buf.drop 4)).1
        let cs ← readTableInteriorLoop file size off ps
        some (⟨lc, rowID, 0, [], none⟩ :: cs)

/-- `ReadCellPtrs` from btree.go: read the pointer array, then dispatch on
the page type; a type byte outside the four known values falls through the
switch and produces no cells and no error. -/
def ReadCellPtrsB (file : List Nat) (size : Nat) (off : Int) (pageNum : Nat) (h : HeaderS) :
    Option (List Int × List TableGo × List CellS) :=
  let ptrs := readPtrs file off h.type h.cellCount
  if h.type = 13 then
    if size = 0 then none
    else do
      let (cs, ts) ← readTableLeafLoop file size off pageNum ptrs
      some (ptrs, ts, cs)
  else if h.type = 10 then do
    let cs ← readIndexLeafLoop file size ptrs
    some (ptrs, [], cs)
  else if h.type = 2 then do
    let cs ← readIndexInteriorLoop file size ptrs
    some (ptrs, [], cs)
  else if h.type = 5 then do
    let cs ← readTableInteriorLoop file size off ptrs
    some (ptrs, [], cs)
  else some (ptrs, [], [])

/-- `TraverseBTree` from btree.go: decode the page; leaf pages return at
once, any other page descends the left-child pointer of each decoded cell
(and nothing else).  `fuel` bounds the recursion depth. -/
def TraverseBTree : Nat → List Nat → Nat → Nat → Option PageS
  | 0, _, _, _ => none
  | fuel + 1, file, size, pageNum =>
    if pageNum = 0 then none
    else
      let off : Int := if pageNum = 1 then 100 else ((pageNum : Int) - 1) * (size : Int)
      let h := ReadHeaderB file off
      do
        let (ptrs, ts, cs) ← ReadCellPtrsB file size off pageNum h
        if h.type = 13 ∨ h.type = 10 then
          some (.mk h size off pageNum ptrs ts cs [])
        else do
          let ch ← cs.mapM fun c => TraverseBTree fuel file size c.leftChildPointer
          some (.mk h size off pageNum ptrs ts cs ch)

mutual

/-- Row-ids produced for a page tree in the order of `GetTableColumn` with
column `-1`: leaf pages emit their cells in cell-pointer order, other pages
concatenate the emissions of their materialized children. -/
def emitRowIds : PageS → List Nat
  | .mk h _ _ _ _ _ cs ps =>
    if h.type = 13 ∨ h.type = 10 then cs.map CellS.rowID else emitRowIdsF ps

/-- Emission over a list of child pages, left to right. -/
def emitRowIdsF : List PageS → List Nat
  | [] => []
  | p :: ps => emitRowIds p ++ emitRowIdsF ps

end

mutual

/-- `GetTableColumn` from btree.go: on leaf pages, one string per cell —
the row-id rendered in decimal when `colNum = -1`, otherwise the bytes of
record key `colNum` (a missing record or out-of-range index is a Go panic,
`none`); other pages concatenate over their children. -/
def GetTableColumn : PageS → Int → Option (List String)
  | .mk h _ _ _ _ _ cs ps, colNum =>
    if h.type = 13 ∨ h.type = 10 then
      cs.mapM fun c =>
        if colNum = -1 then some (toString c.rowID)
        else do
          let r ← c.record
          if colNum < 0 then none
          else do
            let k ← r.keys.get? colNum.toNat
            some (bytesToString k)
    else GetTableColumnF ps colNum

/-- Concatenation of `GetTableColumn` over child pages. -/
def GetTableColumnF : List PageS → Int → Option (List String)
  | [], _ => some []
  | p :: ps, colNum => do
    let r ← GetTableColumn p colNum
    let rs ← GetTableColumnF ps colNum
    some (r ++ rs)

end

/-- One row of `GetTableColumns`: walk the column names with their index. -/
def rowOfCell (c : CellS) : List String → Nat → Option (List String)
  | [], _ => some []
  | colName :: rest, i =>
    if goContains colName "id" then do
      let tl ← rowOfCell c rest (i + 1)
      some (toString c.rowID :: tl)
    else do
      let r ← c.record
      let k ← r.keys.get? i
      let tl ← rowOfCell c rest (i + 1)
      some (bytesToString k :: tl)

mutual

/-- `GetTableColumns` from btree.go: on leaf pages one row per cell, where a
requested column name containing `"id"` reports the row-id and any other
column reports record key `i` (the position of the name in the list); other
pages concatenate over their children. -/
def GetTableColumns : PageS → List String → Option (List (List String))
  | .mk h _ _ _ _ _ cs ps, colNames =>
    if h.type = 13 ∨ h.type = 10 then
      cs.mapM fun c => rowOfCell c colNames 0
    else GetTableColumnsF ps colNames

/-- Concatenation of `GetTableColumns` over child pages. -/
def GetTableColumnsF : List PageS → List String → Option (List (List String))
  | [], _ => some []
  | p :: ps, colNames => do
    let r ← GetTableColumns p colNames
    let rs ← GetTableColumnsF ps colNames
    some (r ++ rs)

end

/-- `GetTableNames` (method form) from btree.go: errors unless the page is a
leaf-table page, otherwise the catalog names. -/
def GetTableNames (p : PageS) : Option (List String) :=
  if p.header.type = 13 then some (p.tables.map TableGo.name) else none

/-- `GetTableColumnNames` from btree.go.  The outer `Option` is a Go panic
(indexing an empty `Tables` slice); the inner value is `Except`-style: the
source returns an error for non-leaf pages, and the caller in
`EvaluateStatement` discards that error, keeping a `nil` column list. -/
def GetTableColumnNames (p : PageS) (name : String) : Option (Option (List String)) :=
  if p.header.type = 13 then
    let rowNum := ((p.tables.map TableGo.name).findIdx? (· = name)).getD 0
    match p.tables.get? rowNum with
    | some t => some (some t.colNames)
    | none => none
  else some none

mutual

/-- Bool-level well-formedness of a table B-tree as produced by the walker:
a leaf-table page carries strictly ascending row-ids; an interior-table page
pairs each cell with the child materialized from its left-child pointer, the
child's rows never exceed the cell's row-id, and every row of the remaining
children lies strictly above it.  This is the SQLite table B-tree invariant
restricted to the tree the walker materializes. -/
def wfTable : PageS → Bool
  | .mk h _ _ _ _ _ cs ps =>
    if h.type = 13 then ps.isEmpty && List.Chain' (· < ·) (cs.map CellS.rowID)
    else if h.type = 5 then wfZip cs ps
    else false

/-- Pairing of interior cells with their materialized children. -/
def wfZip : List CellS → List PageS → Bool
  | [], [] => true
  | c :: cs, p :: ps =>
    wfTable p && (emitRowIds p).all (· ≤ c.rowID) && (emitRowIdsF ps).all (c.rowID < ·) &&
      wfZip cs ps
  | _, _ => false

end

/-- Parsed aggregate function of handler.go. -/
structure FunctionH where
  name : String
  args : List String
  deriving DecidableEq, Repr

/-- Parsed projection expression of handler.go. -/
structure ExprH where
  args : List String
  function : Option FunctionH
  deriving DecidableEq, Repr

/-- Parsed FROM clause of handler.go (`From.Exprs.Args`). -/
structure FromH where
  args : List String
  deriving DecidableEq, Repr

/-- Parsed WHERE clause of handler.go (`Where.Exprs.Args`). -/
structure WhereH where
  args : List String
  deriving DecidableEq, Repr

/-- Parsed SELECT statement of handler.go. -/
structure SelectStatementH where
  exprs : ExprH
  fromE : FromH
  whereE : Option WhereH
  deriving DecidableEq, Repr

/-- Row loop of `FilterEqual`: keep the rows whose value at `colIdx`,
lowercased, equals `right`; accessing a missing column is a Go panic. -/
def filterRows (colIdx : Nat) (right : String) : List (List String) → Option (List (List String))
  | [] => some []
  | row :: rest => do
    let v ← row.get? colIdx
    let tl ← filterRows colIdx right rest
    some (if goToLower v = right then row :: tl else tl)

/-- `FilterEqual` from handler.go: strip every surrounding quote from the
literal, resolve the column as the first declared name containing `left` as
a substring (index 0 when none does), and keep the rows whose lowercased
value there equals the literal; the declared-name row rides along at the
tail of `result`. -/
def FilterEqual (left right : String) (result : List (List String)) : Option (List (List String)) :=
  let right := goTrimQuotes right
  match result.getLast? with
  | none => none
  | some colNames =>
    let rows := result.dropLast
    let colIdx := (colNames.findIdx? fun colName => goContains colName left).getD 0
    do
      let filtered ← filterRows colIdx right rows
      some (filtered ++ [colNames])

/-- `EvaluateWhere` from handler.go: a malformed clause or an operator other
than `=` is an error. -/
def EvaluateWhere (result : List (List String)) (w : WhereH) : Option (List (List String)) :=
  if w.args.length ≠ 3 then none
  else
    match w.args.get? 0, w.args.get? 1, w.args.get? 2 with
    | some left, some op, some right => if op = "=" then FilterEqual left right result else none
    | _, _, _ => none

/-- `SelectColumns` from handler.go: for each requested name, the first
declared column containing it as a substring contributes its value to every
row; a requested name matching no declared column is skipped. -/
def SelectColumns (result : List (List String)) (stmt : SelectStatementH) :
    Option (List (List String)) :=
  match result.getLast? with
  | none => none
  | some colNames =>
    let rows := result.dropLast
    rows.mapM fun row =>
      stmt.exprs.args.foldlM
        (fun acc colName =>
          match colNames.findIdx? (fun col => goContains col colName) with
          | none => some acc
          | some colIdx => (row.get? colIdx).map fun v => acc ++ [v])
        []

/-- Go `strings.Join(parts, sep)`. -/
def goJoin (sep : String) : List String → String
  | [] => ""
  | [x] => x
  | x :: xs => x ++ sep ++ goJoin sep xs

/-- `FlattenResult` from handler.go: pipe-join each row. -/
def FlattenResult (rows : List (List String)) : List String :=
  rows.map fun row => goJoin "|" row

/-- `EvaluateFunction` from handler.go: only `COUNT` is implemented and it
returns a single row holding the decimal length of its input. -/
def EvaluateFunction (result : List String) (stmt : SelectStatementH) : Option (List String) :=
  match stmt.exprs.function with
  | none => none
  | some f => if f.name = "COUNT" then some [toString result.length] else none

/-- `EvaluateStatement` from handler.go.  The `*` projection renders every
cell of the resolved table page as its record keys joined by spaces; any
other projection goes through declared column names, the optional WHERE
filter, and `SelectColumns`. -/
def EvaluateStatement (rootPage table : PageS) (stmt : SelectStatementH) : Option (List String) :=
  match stmt.exprs.args with
  | [] => none
  | a0 :: _ =>
    if a0 = "*" then
      table.cells.mapM fun c => do
        let r ← c.record
        some (String.join (r.keys.map fun k => bytesToString k ++ " "))
    else
      match stmt.fromE.args with
      | [] => none
      | tableName :: _ => do
        let colsE ← GetTableColumnNames rootPage tableName
        let cols := colsE.getD []
        let result ← GetTableColumns table cols
        let result := result ++ [cols]
        match stmt.whereE with
        | none => (SelectColumns result stmt).map FlattenResult
        | some w => do
          let result ← EvaluateWhere result w
          (SelectColumns result stmt).map FlattenResult

/-- The query-evaluation core of `HandleCommand` in handler.go, after the
statement is parsed and the table page resolved: a plain statement is
evaluated directly, a function statement feeds its evaluation into
`EvaluateFunction`. -/
def handleParsed (rootPage table : PageS) (stmt : SelectStatementH) : Option (List String) :=
  if stmt.fromE.args.length ≠ 1 then none
  else
    match stmt.exprs.function with
    | none => EvaluateStatement rootPage table stmt
    | some _ => do
      let result ← EvaluateStatement rootPage table stmt
      EvaluateFunction result stmt

namespace V2

/-- One data-table row as surfaced by a table B-tree walk: the row-id and
the stringified record values in declared-column order. -/
structure TableRow where
  rowID : Nat
  keys : List String
  deriving DecidableEq, Repr

/-- One index-table entry as surfaced by an index B-tree walk: first key
column (the indexed value) and second key column (the row-id). -/
structure IndexEntry where
  key : String
  rowID : Nat
  deriving DecidableEq, Repr

/-- Catalog row of sqlite.go (`Table`), extended with the leaf content its
root page yields so the walks can be evaluated relationally: `rows` for a
data table, `ientries` for an index table, both in DFS leaf order. -/
structure CatEntry where
  ctype : Nat
  name : String
  colNames : List String
  rows : List TableRow
  ientries : List IndexEntry
  deriving DecidableEq, Repr

/-- The `SQLite` database value: its parsed catalog. -/
structure DBM where
  tables : List CatEntry
  deriving DecidableEq, Repr

/-- WHERE clause of the part_002 parser; `right` already has its quotes
stripped by `ParseWhere`. -/
structure Where2 where
  left : String
  right : String
  op : String
  deriving DecidableEq, Repr

/-- SELECT statement of the part_002 parser. -/
structure SelectStatement2 where
  cols : List String
  function : String
  fromT : String
  whereC : Option Where2
  deriving DecidableEq, Repr

/-- `IndexFilter.PassesFilter` from sqlite.go: exact string equality between
the filter key and the cell key. -/
def PassesFilter (filterKey key : String) : Bool := filterKey = key

/-- `GetIndexPageName` from sqlite.go: the name of the first catalog entry
of index kind whose column list contains `key` exactly, or `""`. -/
def GetIndexPageName (db : DBM) (key : String) : String :=
  match db.tables.find? (fun t => t.ctype = 1 && t.colNames.contains key) with
  | some t => t.name
  | none => ""

/-- `getRootPageNumber` resolution from sqlite.go: the catalog entry with
the given name (an error when absent). -/
def findTable (db : DBM) (name : String) : Option CatEntry :=
  db.tables.find? (fun t => t.name = name)

/-- Modelled from the spec: `GetFilteredRowIDs` is not among the sources.
The IndexKeyFilter walk records the cells whose first key column equals the
literal (the equality being `IndexFilter.PassesFilter`), and the row-id is
the second key column of the index record. -/
def GetFilteredRowIDs (entries : List IndexEntry) (key : String) : List Nat :=
  (entries.filter fun e => PassesFilter key e.key).map IndexEntry.rowID

/-- Modelled from the spec: `ParseLeafTableCells` under a `TableFilter` is
not among the sources.  On leaf-table pages the walk emits only the cells
whose row-id appears in the filter's list. -/
def walkTableFiltered (rows : List TableRow) (ids : List Nat) : List TableRow :=
  rows.filter fun r => ids.contains r.rowID

/-- `GetRootPageByName` with no filter: the full leaf content of the named
table's B-tree. -/
def GetRootPageByNameNil (db : DBM) (name : String) : Option (List TableRow) :=
  (findTable db name).map CatEntry.rows

/-- `GetRootPageByName` with a string filter followed by
`GetFilteredRowIDs`, as performed by `CheckForIndexPage`: the row-ids of
the index entries matching the key. -/
def GetRootPageByNameIdx (db : DBM) (name key : String) : Option (List Nat) :=
  (findTable db name).map fun t => GetFilteredRowIDs t.ientries key

/-- `GetRootPageByName` with a row-id list filter (the list is sorted by the
source before the walk; membership filtering is order-insensitive). -/
def GetRootPageByNameIds (db : DBM) (name : String) (ids : List Nat) : Option (List TableRow) :=
  (findTable db name).map fun t => walkTableFiltered t.rows ids

/-- `GetTableColNames` from sqlite.go: linear scan for the name with a
default row number of zero; indexing an empty catalog is a Go panic. -/
def GetTableColNames (db : DBM) (name : String) : Option (List String) :=
  let rowNum := ((db.tables.map CatEntry.name).findIdx? (· = name)).getD 0
  (db.tables.get? rowNum).map CatEntry.colNames

/-- One materialized row: a requested column name containing `"id"` reports
the row-id, any other reports the record value at the name's position. -/
def rowOfV2 (r : TableRow) : List String → Nat → Option (List String)
  | [], _ => some []
  | colName :: rest, i =>
    if goContains colName "id" then do
      let tl ← rowOfV2 r rest (i + 1)
      some (toString r.rowID :: tl)
    else do
      let v ← r.keys.get? i
      let tl ← rowOfV2 r rest (i + 1)
      some (v :: tl)

/-- Modelled from the spec: `GetAllRows` is not among the sources.  Rows are
materialized as lists of strings with the row-id substituted for any column
whose name contains `"id"`, exactly as `GetTableColumns` of btree.go does. -/
def GetAllRows (rows : List TableRow) (cols : List String) : Option (List (List String)) :=
  rows.mapM fun r => rowOfV2 r cols 0

/-- `FilterEqual` from part_002: identical to the handler.go filter except
that the literal arrives already quote-stripped by `ParseWhere`. -/
def FilterEqual (w : Where2) (result : List (List String)) : Option (List (List String)) :=
  match result.getLast? with
  | none => none
  | some colNames =>
    let rows := result.dropLast
    let colIdx := (colNames.findIdx? fun colName => goContains colName w.left).getD 0
    do
      let filtered ← filterRows colIdx w.right rows
      some (filtered ++ [colNames])

/-- `EvaluateWhere` from part_002: absent clause passes everything through. -/
def EvaluateWhere (result : List (List String)) (stmt : SelectStatement2) :
    Option (List (List String)) :=
  match stmt.whereC with
  | none => some result
  | some w => if w.op = "=" then FilterEqual w result else none

/-- `SelectCols` from part_002 (same projection logic as handler.go). -/
def SelectCols (stmt : SelectStatement2) (result : List (List String)) :
    Option (List (List String)) :=
  match result.getLast? with
  | none => none
  | some colNames =>
    let rows := result.dropLast
    rows.mapM fun row =>
      stmt.cols.foldlM
        (fun acc colName =>
          match colNames.findIdx? (fun col => goContains col colName) with
          | none => some acc
          | some colIdx => (row.get? colIdx).map fun v => acc ++ [v])
        []

/-- `EvaluateFunc` from part_002. -/
def EvaluateFunc (stmt : SelectStatement2) (result : List String) : Option (List String) :=
  if stmt.function = "COUNT" then some [toString result.length] else none

/-- `EvaluateStmt` from part_002 over the rows the chosen walk yielded. -/
def EvaluateStmt (db : DBM) (rootRows : List TableRow) (stmt : SelectStatement2) :
    Option (List String) := do
  let cols ← GetTableColNames db stmt.fromT
  let result ← GetAllRows rootRows cols
  let result := result ++ [cols]
  if stmt.cols = ["*"] then some (FlattenResult result.dropLast)
  else do
    let result ← EvaluateWhere result stmt
    (SelectCols stmt result).map FlattenResult

/-- `CheckForIndexPage` from part_002: when the WHERE column is covered by
an index table, walk that index with the literal, collect the matching
row-ids, and walk the data table with them as a row-id filter. -/
def CheckForIndexPage (stmt : SelectStatement2) (db : DBM) : Option (List TableRow) :=
  match stmt.whereC with
  | none => none
  | some w =>
    let idxPageName := GetIndexPageName db w.left
    if idxPageName = "" then none
    else do
      let rowIds ← GetRootPageByNameIdx db idxPageName w.right
      GetRootPageByNameIds db stmt.fromT rowIds

/-- `HandleCommand` from part_002, after parsing: prefer the index-filtered
walk, fall back to the plain walk, then evaluate. -/
def HandleCommand (stmt : SelectStatement2) (db : DBM) : Option (List String) := do
  let rootRows ←
    match CheckForIndexPage stmt db with
    | some r => some r
    | none => GetRootPageByNameNil db stmt.fromT
  if stmt.function = "" then EvaluateStmt db rootRows stmt
  else do
    let result ← EvaluateStmt db rootRows stmt
    EvaluateFunc stmt result

/-- The same pipeline with index lookup disabled: always the plain walk
(this is exactly the source's fallback branch). -/
def HandleCommandNoIndex (stmt : SelectStatement2) (db : DBM) : Option (List String) := do
  let rootRows ← GetRootPageByNameNil db stmt.fromT
  if stmt.function = "" then EvaluateStmt db rootRows stmt
  else do
    let result ← EvaluateStmt db rootRows stmt
    EvaluateFunc stmt result

end V2

/-! Concrete inputs used by the individual claims. -/

/-- A 128-byte database image with page size 32.  Page 2 is an
interior-table page with one cell (left child 3, row-id 1) and right-most
child pointer 4; pages 3 and 4 are leaf-table pages holding row-ids 1 and 2
respectively, each with a one-column record of serial type 8. -/
def file1 : List Nat :=
  [0, 0, 0, 0, 0, 0, 0, 0, 0, 0, 0, 0, 0, 0, 0, 0, 0, 0, 0, 0, 0, 0, 0, 0,
   0, 0, 0, 0, 0, 0, 0, 0, 5, 0, 0, 0, 1, 0, 0, 0, 0, 0, 0, 4, 0, 16, 0, 0,
   0, 0, 0, 3, 1, 0, 0, 0, 0, 0, 0, 0, 0, 0, 0, 0, 13, 0, 0, 0, 1, 0, 0, 0,
   0, 16, 0, 0, 0, 0, 0, 0, 2, 1, 2, 8, 0, 0, 0, 0, 0, 0, 0, 0, 0, 0, 0, 0,
   13, 0, 0, 0, 1, 0, 0, 0, 0, 16, 0, 0, 0, 0, 0, 0, 2, 2, 2, 8, 0, 0, 0, 0,
   0, 0, 0, 0, 0, 0, 0, 0]

/-- A 64-byte database image with page size 32 whose page 2 carries the
unknown page-type byte 7, a cell count of 1 and one cell pointer. -/
def fileU : List Nat :=
  [0, 0, 0, 0, 0, 0, 0, 0, 0, 0, 0, 0, 0, 0, 0, 0, 0, 0, 0, 0, 0, 0, 0, 0,
   0, 0, 0, 0, 0, 0, 0, 0, 7, 0, 0, 0, 1, 0, 0, 0, 0, 16, 0, 0, 0, 0, 0, 0,
   0, 0, 0, 0, 0, 0, 0, 0, 0, 0, 0, 0, 0, 0, 0, 0]

/-- Ten bytes whose first nine all carry the continuation bit. -/
def varintBuf10 : List Nat := [129, 128, 128, 128, 128, 128, 128, 128, 128, 0]

/-- A well-formed nine-byte SQLite varint: eight continuation bytes and a
ninth byte that the format says contributes all eight of its bits. -/
def varintBuf9 : List Nat := [128, 128, 128, 128, 128, 128, 128, 128, 255]

/-- Catalog for the index-divergence scenario: table `apples(name, color)`
holding row-id 4 with values `Golden Delicious` / `Yellow`, and an index
table over `color` whose single entry is (`Yellow`, 4). -/
def dbC2 : V2.DBM :=
  ⟨[⟨0, "apples", ["name", "color"], [⟨4, ["Golden Delicious", "Yellow"]⟩], []⟩,
    ⟨1, "idx_color", ["color"], [], [⟨"Yellow", 4⟩]⟩]⟩

/-- The lowercased parse of `SELECT name FROM apples WHERE color = 'yellow'`. -/
def stmtC2 : V2.SelectStatement2 := ⟨["name"], "", "apples", some ⟨"color", "yellow", "="⟩⟩

/-- The literal token consisting of the letter x between two pairs of single
quotes. -/
def doubleQuotedX : String := String.mk [quoteC, quoteC, 'x', quoteC, quoteC]

/-- The same token after stripping exactly one surrounding pair of quotes. -/
def onePairStrippedX : String := String.mk [quoteC, 'x', quoteC]

/-- A two-page well-formed table B-tree: an interior page whose single cell
(row-id bound 2) points at a leaf holding row-ids 1 and 2. -/
def pageC4 : PageS :=
  .mk ⟨5, 1, 0⟩ 32 0 2 [16] [] [⟨3, 2, 0, [], none⟩]
    [.mk ⟨13, 2, 0⟩ 32 0 3 [16, 20] [] [⟨0, 1, 0, [], none⟩, ⟨0, 2, 0, [], none⟩] []]

/-- A single-cell leaf-table page whose record holds the text `hi`. -/
def pageC5 : PageS :=
  .mk ⟨13, 1, 0⟩ 32 0 2 [16] [] [⟨0, 1, 3, [], some ⟨2, [17], [[104, 105]]⟩⟩] []

/-! Theorems settling the claims. -/

/-- C1: the claim states that a walk rooted at an interior-table page
descends the right-most child page number stored in the page header, so that
every leaf cell under the root is produced.  On `file1`, `TraverseBTree`
reads the right-most pointer 4 into the header but only descends the left
child 3: the walk emits row-id 1 alone, while the leaf page 4 it never
visits holds row-id 2.  The code drops the right-most subtree of every
interior-table page. -/
theorem c1_rightmost_child_not_descended :
    (TraverseBTree 5 file1 32 2).map (fun p => p.header.rightMost) = some 4 ∧
    (TraverseBTree 5 file1 32 2).map emitRowIds = some [1] ∧
    (TraverseBTree 5 file1 32 4).map emitRowIds = some [2] :=
  ⟨rfl, rfl, rfl⟩

/-- C2: the claim states that an index-accelerated `WHERE col = lit` query
returns the same rows as the plain scan.  On `dbC2` the column `color` is
indexed, yet the indexed pipeline returns no rows — `IndexFilter` compares
the lowercased literal `yellow` exactly against the stored key `Yellow` —
while the scan pipeline compares case-insensitively and returns the row. -/
theorem c2_index_scan_divergence :
    V2.GetIndexPageName dbC2 "color" = "idx_color" ∧
    V2.HandleCommand stmtC2 dbC2 = some [] ∧
    V2.HandleCommandNoIndex stmtC2 dbC2 = some ["Golden Delicious"] :=
  ⟨rfl, rfl, rfl⟩

/-- C3: the claim states the varint decoder reads at most 9 bytes and gives
the 9th byte all 8 of its bits.  `ReadVarInt` caps nothing: on ten bytes
whose first nine carry the continuation bit it consumes all ten, and on a
conforming nine-byte varint ending in `0xFF` it runs off the buffer and
returns count 0 with only the low seven bits of the last byte, instead of
`(255, 9)`. -/
theorem c3_varint_no_nine_byte_cap :
    ReadVarInt varintBuf10 = (2 ^ 63, 10) ∧
    ReadVarInt varintBuf9 = (127, 0) :=
  ⟨rfl, rfl⟩

/-- C6 counterexample: the claim states a page whose type byte is outside
{0x02, 0x05, 0x0a, 0x0d} fails to decode with a malformed-file error.  On
`fileU`, whose page 2 has type byte 7, decoding succeeds and simply yields a
page with no cells and no children. -/
theorem c6_counterexample_unknown_type_accepted :
    (TraverseBTree 2 fileU 32 2).map (fun p => (p.header.type, p.cellPtrs, p.cells, p.pages.length))
      = some (7, [16], [], 0) :=
  rfl

/-- C7 counterexample: the claim states a record whose serial-type width
overruns the payload yields a malformed-record error.  In the two-byte
payload `[2, 15]` the single column has TEXT serial type 15, width 1, but 0
bytes remain after the header — an overrun (`2 + 1 > 2`) — and `ReadRecord`
still succeeds, clamping the value to the empty slice. -/
theorem c7_counterexample_overrun_not_error :
    ReadRecord [2, 15] = some ⟨2, [15], [[]]⟩ ∧
    2 + (15 - 13) / 2 > List.length ([2, 15] : List Nat) :=
  ⟨rfl, by decide⟩

/-- C8 counterexample: the claim says a single pair of surrounding single
quotes is stripped from the literal.  For the literal consisting of `x`
inside two pairs of quotes, the row holding plain `x` survives
`FilterEqual` — the source strips every surrounding quote — although `x`
differs case-insensitively from the single-pair-stripped literal, under
which the claim says the row must be dropped. -/
theorem c8_counterexample_all_quotes_stripped :
    FilterEqual "color" doubleQuotedX [["x"], ["color"]] = some [["x"], ["color"]] ∧
    goToLower "x" ≠ goToLower onePairStrippedX :=
  ⟨rfl, by decide⟩

/-- Accumulator form of `mapM_some`. -/
theorem mapM_loop_some {α β : Type} (f : α → β) (g : α → Option β)
    (hfg : ∀ a, g a = some (f a)) :
    ∀ (l : List α) (acc : List β), List.mapM.loop g l acc = some (acc.reverse ++ l.map f)
  | [], acc => by simp [List.mapM.loop]
  | a :: l, acc => by
    simp [List.mapM.loop, hfg a, mapM_loop_some f g hfg l]

/-- An Option-valued `mapM` whose function always succeeds is the `map` of
the produced values. -/
theorem mapM_some {α β : Type} (f : α → β) (g : α → Option β) (hfg : ∀ a, g a = some (f a))
    (l : List α) : l.mapM g = some (l.map f) := by
  simp [List.mapM, mapM_loop_some f g hfg l]

mutual

/-- With column number `-1`, `GetTableColumn` never fails and renders
exactly the emitted row-ids in order. -/
theorem getCol_neg_one : (p : PageS) → GetTableColumn p (-1) = some ((emitRowIds p).map toString)
  | .mk h s o pn cp tb cs ps => by
    unfold GetTableColumn emitRowIds
    by_cases ht : h.type = 13 ∨ h.type = 10
    · simp only [if_pos ht]
      rw [List.map_map]
      exact mapM_some _ _ (fun c => by simp) cs
    · simp only [if_neg ht]
      exact getColF_neg_one ps

/-- List version of `getCol_neg_one`. -/
theorem getColF_neg_one : (ps : List PageS) →
    GetTableColumnF ps (-1) = some ((emitRowIdsF ps).map toString)
  | [] => by simp [GetTableColumnF, emitRowIdsF]
  | p :: ps => by
    simp [GetTableColumnF, emitRowIdsF, getCol_neg_one p, getColF_neg_one ps]

end

mutual

/-- Emitted row-ids of a well-formed table B-tree are strictly ascending. -/
theorem wf_pairwise : (p : PageS) → wfTable p = true →
    List.Pairwise (· < ·) (emitRowIds p)
  | .mk h s o pn cp tb cs ps, hw => by
    unfold wfTable at hw
    unfold emitRowIds
    by_cases h13 : h.type = 13
    · rw [if_pos h13] at hw
      rw [if_pos (Or.inl h13)]
      rw [Bool.and_eq_true] at hw
      exact List.chain'_iff_pairwise.mp (of_decide_eq_true hw.2)
    · rw [if_neg h13] at hw
      by_cases h5 : h.type = 5
      · rw [if_pos h5] at hw
        rw [if_neg (by omega : ¬(h.type = 13 ∨ h.type = 10))]
        exact wfZip_pairwise cs ps hw
      · rw [if_neg h5] at hw
        exact absurd hw (by simp)

/-- Emitted row-ids of the children paired by `wfZip` are strictly
ascending. -/
theorem wfZip_pairwise : (cs : List CellS) → (ps : List PageS) → wfZip cs ps = true →
    List.Pairwise (· < ·) (emitRowIdsF ps)
  | [], [], _ => by simp [emitRowIdsF]
  | [], _ :: _, hw => by simp [wfZip] at hw
  | _ :: _, [], hw => by simp [wfZip] at hw
  | c :: cs, p :: ps, hw => by
    unfold wfZip at hw
    simp only [Bool.and_eq_true] at hw
    obtain ⟨⟨⟨h1, h2⟩, h3⟩, h4⟩ := hw
    unfold emitRowIdsF
    rw [List.pairwise_append]
    refine ⟨wf_pairwise p h1, wfZip_pairwise cs ps h4, ?_⟩
    intro x hx y hy
    have hx' : x ≤ c.rowID := by
      have := List.all_eq_true.mp h2 x hx
      simpa using this
    have hy' : c.rowID < y := by
      have := List.all_eq_true.mp h3 y hy
      simpa using this
    omega

end

/-- C4: emitting the leaf-table cells of a well-formed table B-tree via the
walker's DFS — which is what `GetTableColumn` with column `-1` renders, in
cell-pointer order within each page — yields row-ids in strictly ascending
order. -/
theorem c4_dfs_rowids_strictly_ascending (p : PageS) (hw : wfTable p = true) :
    GetTableColumn p (-1) = some ((emitRowIds p).map toString) ∧
    List.Pairwise (· < ·) (emitRowIds p) :=
  ⟨getCol_neg_one p, wf_pairwise p hw⟩

/-- The concrete tree `pageC4` satisfies the invariant. -/
theorem pageC4_wf : wfTable pageC4 = true := by
  simp +decide [wfTable, wfZip, emitRowIds, emitRowIdsF, pageC4]

/-- Witness for C4 at the concrete two-page tree. -/
theorem c4_witness :
    wfTable pageC4 = true ∧
    (GetTableColumn pageC4 (-1) = some ((emitRowIds pageC4).map toString) ∧
     List.Pairwise (· < ·) (emitRowIds pageC4)) :=
  ⟨pageC4_wf, c4_dfs_rowids_strictly_ascending pageC4 pageC4_wf⟩

/-- C5: `SELECT COUNT(*) FROM T` runs the very same evaluation as
`SELECT * FROM T` — `EvaluateStatement` never inspects the parsed function —
and wraps its row count in a single decimal row. -/
theorem c5_count_equals_scan_length (root table : PageS) (f : FromH) (w : Option WhereH)
    (cargs : List String) (rows : List String)
    (hf : f.args.length = 1)
    (hscan : EvaluateStatement root table ⟨⟨["*"], none⟩, f, w⟩ = some rows) :
    handleParsed root table ⟨⟨["*"], some ⟨"COUNT", cargs⟩⟩, f, w⟩ =
      some [toString rows.length] := by
  have heval : EvaluateStatement root table ⟨⟨["*"], some ⟨"COUNT", cargs⟩⟩, f, w⟩ = some rows :=
    hscan
  unfold handleParsed
  rw [if_neg (by simp [hf])]
  simp [heval, EvaluateFunction]

/-- Witness for C5 at a concrete one-row table. -/
theorem c5_witness :
    (⟨["t"]⟩ : FromH).args.length = 1 ∧
    EvaluateStatement pageC5 pageC5 ⟨⟨["*"], none⟩, ⟨["t"]⟩, none⟩ = some ["hi "] ∧
    handleParsed pageC5 pageC5 ⟨⟨["*"], some ⟨"COUNT", ["*"]⟩⟩, ⟨["t"]⟩, none⟩ =
      some [toString (["hi "] : List String).length] :=
  ⟨rfl, rfl, c5_count_equals_scan_length pageC5 pageC5 ⟨["t"]⟩ none ["*"] ["hi "] rfl rfl⟩

/-- C6 amended: a page whose type byte is outside the four known values is
decoded without error — `NewHeader` assigns it the 8-byte leaf header
length, and the cell dispatch reads the pointer array but produces no cells
at all. -/
theorem c6_amended_unknown_type_no_error (file : List Nat) (size : Nat) (off : Int)
    (pageNum : Nat) (h : HeaderS)
    (h2 : h.type ≠ 2) (h5 : h.type ≠ 5) (h10 : h.type ≠ 10) (h13 : h.type ≠ 13) :
    NewHeaderSize h.type = 8 ∧
    ReadCellPtrsB file size off pageNum h = some (readPtrs file off h.type h.cellCount, [], []) := by
  constructor
  · unfold NewHeaderSize
    rw [if_neg (by simp [h5, h2])]
  · unfold ReadCellPtrsB
    simp [h2, h5, h10, h13]

/-- Witness for the C6 amended theorem at type byte 7 on `fileU`. -/
theorem c6_witness :
    ((⟨7, 1, 0⟩ : HeaderS).type ≠ 2 ∧ (⟨7, 1, 0⟩ : HeaderS).type ≠ 5 ∧
     (⟨7, 1, 0⟩ : HeaderS).type ≠ 10 ∧ (⟨7, 1, 0⟩ : HeaderS).type ≠ 13) ∧
    (NewHeaderSize (⟨7, 1, 0⟩ : HeaderS).type = 8 ∧
     ReadCellPtrsB fileU 32 32 2 ⟨7, 1, 0⟩ =
       some (readPtrs fileU 32 (⟨7, 1, 0⟩ : HeaderS).type (⟨7, 1, 0⟩ : HeaderS).cellCount, [], [])) :=
  ⟨⟨by decide, by decide, by decide, by decide⟩,
   c6_amended_unknown_type_no_error fileU 32 32 2 ⟨7, 1, 0⟩
     (by decide) (by decide) (by decide) (by decide)⟩

/-- C7 amended: the record decoder returns no malformed-record error on a
width overrun.  A TEXT (or BLOB) width that overruns the payload is clamped
to the end of the buffer and decoding succeeds with the truncated value,
while a fixed-width overrun (here serial type 1 with no byte left) aborts
with a slice-bounds panic rather than an error value. -/
theorem c7_amended_overrun_clamped (k : Nat) (body : List Nat)
    (hk : k ≤ 57) (hov : body.length < k) :
    ReadRecord (2 :: (13 + 2 * k) :: body) = some ⟨2, [13 + 2 * k], [body]⟩ ∧
    ReadRecord [2, 1] = none := by
  refine ⟨?_, rfl⟩
  have hmod : (13 + 2 * k) % 256 = 13 + 2 * k := Nat.mod_eq_of_lt (by omega)
  have h1 : ReadVarInt (2 :: (13 + 2 * k) :: body) = (2, 1) := by
    simp [ReadVarInt, readVarIntGo, hiClear, low7]
  have hlt : 13 + 2 * k < 128 := by omega
  have h2 : ReadVarInt ((13 + 2 * k) :: body) = (13 + 2 * k, 1) := by
    simp [ReadVarInt, readVarIntGo, hiClear, low7, hmod, hlt, Nat.mod_eq_of_lt hlt]
  have hct : readColTypes (2 :: (13 + 2 * k) :: body) 1 2 3 = some ([13 + 2 * k], 2) := by
    unfold readColTypes
    rw [if_pos (by omega)]
    rw [if_pos (by simp)]
    simp only [List.drop_succ_cons, List.drop_zero, h2]
    rw [if_neg (by omega)]
    unfold readColTypes
    rw [if_neg (by omega)]
    rfl
  have hkeys : readKeys (2 :: (13 + 2 * k) :: body) 2 [13 + 2 * k] = some [body] := by
    unfold readKeys
    rw [if_neg (by omega)]
    rw [if_neg (by omega)]
    rw [if_neg (by omega)]
    rw [if_neg (by omega)]
    rw [if_neg (by omega)]
    rw [if_neg (by omega)]
    rw [if_pos (by simp)]
    have hklen : (13 + 2 * k - 13) / 2 = k := by omega
    have hmin : min ((13 + 2 * k - 13) / 2 + 2) (List.length (2 :: (13 + 2 * k) :: body)) =
        2 + body.length := by
      simp [hklen]
      omega
    rw [hmin]
    unfold readKeys
    simp [sliceN, List.take_length]
  unfold ReadRecord
  rw [h1]
  simp [hct, hkeys]

/-- Witness for the C7 amended theorem at width 1 against an empty body. -/
theorem c7_witness :
    ([] : List Nat).length < 1 ∧
    (ReadRecord (2 :: (13 + 2 * 1) :: []) = some ⟨2, [13 + 2 * 1], [[]]⟩ ∧
     ReadRecord [2, 1] = none) :=
  ⟨by decide, c7_amended_overrun_clamped 1 [] (by decide) (by decide)⟩

/-- The filter loop of `FilterEqual` is a plain `List.filter` whenever every
row is wide enough for the resolved column. -/
theorem filterRows_eq_filter (idx : Nat) (tgt : String) :
    ∀ rows : List (List String), (∀ row ∈ rows, idx < row.length) →
      filterRows idx tgt rows =
        some (rows.filter fun row => goToLower (row.getD idx "") == tgt)
  | [], _ => by simp [filterRows]
  | row :: rest, h => by
    have h1 : idx < row.length := h row (List.mem_cons_self row rest)
    have hget : row.get? idx = some (row.getD idx "") := by
      rw [List.getD_eq_get?, List.get?_eq_get h1]
      rfl
    unfold filterRows
    rw [hget, filterRows_eq_filter idx tgt rest (fun r hr => h r (List.mem_cons_of_mem _ hr))]
    by_cases hc : goToLower (row.getD idx "") = tgt <;> simp [hc, List.filter_cons]

/-- C8 amended: under `FilterEqual` a row survives exactly when the
lowercased value of the resolved column equals the literal with all leading
and trailing single quotes stripped (not merely one surrounding pair); the
resolved column is the first declared name containing the left operand,
defaulting to index 0. -/
theorem c8_amended_all_quotes_trimmed (left right : String) (rows : List (List String))
    (colNames : List String)
    (h : ∀ row ∈ rows, ((colNames.findIdx? fun colName => goContains colName left).getD 0) < row.length) :
    FilterEqual left right (rows ++ [colNames]) =
      some ((rows.filter fun row =>
        goToLower (row.getD ((colNames.findIdx? fun colName => goContains colName left).getD 0) "")
          == goTrimQuotes right) ++ [colNames]) := by
  unfold FilterEqual
  rw [List.getLast?_concat, List.dropLast_concat]
  simp only [filterRows_eq_filter _ _ rows h, Option.bind_some]
  rfl

/-- Witness for the C8 amended theorem on a one-row table. -/
theorem c8_witness :
    (∀ row ∈ [["x"]], ((["color"].findIdx? fun colName => goContains colName "color").getD 0) < row.length) ∧
    FilterEqual "color" doubleQuotedX ([["x"]] ++ [["color"]]) =
      some (([["x"]].filter fun row =>
        goToLower (row.getD ((["color"].findIdx? fun colName => goContains colName "color").getD 0) "")
          == goTrimQuotes doubleQuotedX) ++ [["color"]]) :=
  ⟨by decide, c8_amended_all_quotes_trimmed "color" doubleQuotedX [["x"]] ["color"] (by decide)⟩

/-- An element the Option fold steps over without effect can be removed. -/
theorem foldlM_skip {α β : Type} (step : β → α → Option β) (bad : α)
    (hbad : ∀ acc, step acc bad = some acc) :
    ∀ (l1 l2 : List α) (acc : β),
      List.foldlM step acc (l1 ++ bad :: l2) = List.foldlM step acc (l1 ++ l2)
  | [], l2, acc => by simp [List.foldlM_cons, hbad acc]
  | x :: l1, l2, acc => by
    simp only [List.cons_append, List.foldlM_cons]
    cases hstep : step acc x <;> simp [hstep, foldlM_skip step bad hbad l1 l2]

/-- Pointwise-equal Option functions produce the same `mapM`. -/
theorem mapM_congr {α β : Type} (f g : α → Option β) (hfg : ∀ a, f a = g a) :
    ∀ l : List α, l.mapM f = l.mapM g := by
  have loopEq : ∀ (l : List α) (acc : List β),
      List.mapM.loop f l acc = List.mapM.loop g l acc := by
    intro l
    induction l with
    | nil => intro acc; rfl
    | cons a l ih =>
      intro acc
      simp only [List.mapM.loop, hfg a]
      cases g a <;> simp [ih]
  intro l
  simp [List.mapM, loopEq l]

/-- C9: a projected column name that is a substring of no declared column
name is silently skipped by `SelectColumns`: the evaluation is the same as
if the name had not been requested, and no error is raised. -/
theorem c9_unknown_projection_skipped (colNames : List String) (rows : List (List String))
    (xs ys : List String) (bad : String) (fn : Option FunctionH) (fr : FromH)
    (w : Option WhereH)
    (hbad : ∀ c ∈ colNames, goContains c bad = false) :
    SelectColumns (rows ++ [colNames]) ⟨⟨xs ++ bad :: ys, fn⟩, fr, w⟩ =
      SelectColumns (rows ++ [colNames]) ⟨⟨xs ++ ys, fn⟩, fr, w⟩ := by
  have hidx : (colNames.findIdx? fun col => goContains col bad) = none :=
    List.findIdx?_eq_none_iff.mpr hbad
  unfold SelectColumns
  rw [List.getLast?_concat, List.dropLast_concat]
  refine mapM_congr _ _ (fun row => ?_) rows
  exact foldlM_skip _ bad (fun acc => by simp [hidx]) xs ys []

/-- Witness for C9 with the unknown name `zz` on declared columns `name`. -/
theorem c9_witness :
    (∀ c ∈ ["name"], goContains c "zz" = false) ∧
    SelectColumns ([["a"]] ++ [["name"]]) ⟨⟨[] ++ "zz" :: ["name"], none⟩, ⟨["t"]⟩, none⟩ =
      SelectColumns ([["a"]] ++ [["name"]]) ⟨⟨[] ++ ["name"], none⟩, ⟨["t"]⟩, none⟩ :=
  ⟨by decide,
   c9_unknown_projection_skipped ["name"] [["a"]] [] ["name"] "zz" none ⟨["t"]⟩ none (by decide)⟩

/-- C10: when the WHERE column name is a substring of no declared column
name, `FilterEqual` raises no error: the resolved index stays 0 and the
literal is compared against the first column of each row. -/
theorem c10_unknown_where_column_uses_first (left right : String) (rows : List (List String))
    (colNames : List String)
    (hbad : ∀ c ∈ colNames, goContains c left = false)
    (hne : ∀ row ∈ rows, 0 < row.length) :
    FilterEqual left right (rows ++ [colNames]) =
      some ((rows.filter fun row => goToLower (row.getD 0 "") == goTrimQuotes right) ++ [colNames]) := by
  have hidx : (colNames.findIdx? fun colName => goContains colName left) = none :=
    List.findIdx?_eq_none_iff.mpr hbad
  unfold FilterEqual
  rw [List.getLast?_concat, List.dropLast_concat]
  simp only [hidx, Option.getD_none, filterRows_eq_filter 0 _ rows hne, Option.bind_some]
  rfl

/-- Witness for C10: a WHERE column `zz` unknown to columns `name`. -/
theorem c10_witness :
    (∀ c ∈ ["name"], goContains c "zz" = false) ∧ (∀ row ∈ [["a"]], 0 < row.length) ∧
    FilterEqual "zz" "a" ([["a"]] ++ [["name"]]) =
      some (([["a"]].filter fun row => goToLower (row.getD 0 "") == goTrimQuotes "a") ++ [["name"]]) :=
  ⟨by decide, by decide,
   c10_unknown_where_column_uses_first "zz" "a" [["a"]] ["name"] (by decide) (by decide)⟩

end SQLiteRdr
